import Mathlib

/-!
# Interface collector of `gotests`

A shallow embedding of `internal/interfaces/interface_collector.go`.

* Go strings are Lean strings, `Token` is a string.
* A Go `map[Token]Interface` is a list of key/value pairs whose order carries no meaning;
  `m[k]` is `mapIndex`, `m[k] = v` is `mapAssign`, and a `nil` map is the empty list.
* The Go standard library and `golang.org/x/tools/go/packages` are outside the repository:
  `packages.Load`, `parser.ParseDir`, `filepath.Dir` and `unicode.IsUpper` are fields of `World`.
* The goroutines of `collectFromImports` are run under an explicit `Schedule`.
-/

namespace Gotests

/-! ## Data model -/

/-- Go: `type Token string`. -/
abbrev Token := String

/-- Go: `type Interface struct { Name, DefaultPackageName, ImportPath string }`. -/
structure Interface where
  Name : String
  DefaultPackageName : String
  ImportPath : String
deriving DecidableEq, Repr

/-- Go `error` values that the collector can hold. `errNoFiles` is the package-level sentinel
`errors.New("no go files in package")`; `external` is an error built outside this package
(by `packages.Load`, `parser.ParseDir`, or an entry of `Package.Errors`); `errorf` is
`fmt.Errorf` without `%w`; `wrap` is `fmt.Errorf` with `%w`, keeping the wrapped error. -/
inductive GoError where
  | errNoFiles : GoError
  | external (msg : String) : GoError
  | errorf (msg : String) : GoError
  | wrap (msg : String) (inner : GoError) : GoError
deriving DecidableEq, Repr

/-- Go: `errors.Is(err, errNoFiles)` for a non-nil `err`: walks the `Unwrap` chain looking for
the sentinel. -/
def errorsIsNoFiles : GoError → Bool
  | .errNoFiles => true
  | .wrap _ inner => errorsIsNoFiles inner
  | _ => false

/-- Go: `ast.Ident`, of which only `Name` is read. -/
structure Ident where
  Name : String
deriving DecidableEq, Repr

/-- The expression in `ast.TypeSpec.Type`: an `*ast.InterfaceType` (with its method names), an
`*ast.StructType`, a type name (`*ast.Ident`), a qualified type name (`*ast.SelectorExpr`), a
parenthesised type expression (`*ast.ParenExpr`), or any other type expression. -/
inductive Expr where
  | interfaceType (Methods : List String) : Expr
  | structType (Fields : List String) : Expr
  | ident (Name : String) : Expr
  | selectorExpr (X : String) (Sel : String) : Expr
  | parenExpr (X : Expr) : Expr
  | otherExpr : Expr
deriving DecidableEq, Repr

/-- Go: `ast.TypeSpec`. `Assign` is the position of the `=` of an alias declaration
(`type A = T`) and `0`, which is `token.NoPos`, in a type definition (`type A T`). The
collector reads `Name` and `Type` only. -/
structure TypeSpec where
  Name : Ident
  Assign : Nat
  Type_ : Expr
deriving DecidableEq, Repr

/-- Go: `spec.Assign.IsValid()`: the type spec is an alias declaration. -/
def TypeSpec.isAlias (t : TypeSpec) : Bool := t.Assign != 0

/-- Go: `ast.ImportSpec`: `Name` is the optional alias identifier, `Path` is `Path.Value`,
the path literal of the import with its quotes. -/
structure ImportSpec where
  Name : Option Ident
  Path : String
deriving DecidableEq, Repr

/-- Go: `ast.Spec`, one of `*ast.ImportSpec`, `*ast.ValueSpec`, `*ast.TypeSpec`. -/
inductive Spec where
  | importSpec (s : ImportSpec) : Spec
  | valueSpec (Names : List String) : Spec
  | typeSpec (s : TypeSpec) : Spec
deriving DecidableEq, Repr

/-- Go: the keyword of an `ast.GenDecl`: `token.IMPORT`, `token.CONST`, `token.TYPE`,
`token.VAR`. -/
inductive Tok where
  | IMPORT : Tok
  | CONST : Tok
  | TYPE : Tok
  | VAR : Tok
deriving DecidableEq, Repr

/-- Go: `ast.Decl`. A `funcDecl` carries the general declarations written inside its body,
which are not top-level declarations of the file. -/
inductive Decl where
  | genDecl (Tok : Tok) (Specs : List Spec) : Decl
  | funcDecl (Name : String) (Body : List (Tok × List Spec)) : Decl
  | badDecl : Decl
deriving DecidableEq, Repr

/-- Go: `ast.File`, of which `Imports` and `Decls` are read. -/
structure File where
  Imports : List ImportSpec
  Decls : List Decl
deriving DecidableEq, Repr

/-- Go: `ast.Package`; `Files` is a `map[string]*ast.File`, kept as the list of its entries in
the order in which this run ranges over it. -/
structure AstPackage where
  Name : String
  Files : List (String × File)
deriving DecidableEq, Repr

/-- Go: `packages.Package`, of which `ID`, `Name`, `PkgPath`, `GoFiles` and `Errors` are read.
An entry of `Errors` is kept as its message. -/
structure Package where
  ID : String
  Name : String
  PkgPath : String
  GoFiles : List String
  Errors : List String
deriving DecidableEq, Repr

/-- Go: `type Collector struct { loadDir string }`. -/
structure Collector where
  loadDir : String
deriving DecidableEq, Repr

/-- Go: `NewCollector`. -/
def NewCollector (loadDir : String) : Collector := { loadDir := loadDir }

/-- What the collector calls outside the repository.
`packagesLoad dir pattern` is `packages.Load(cfg, pattern)` with `cfg.Dir = dir`, returning the
package list and the error; `parseDir dir` is `parser.ParseDir(fs, dir, nil, mode)`, returning
the entries of the package map and the error; `filepathDir` is `filepath.Dir`; `unicodeIsUpper`
is `unicode.IsUpper`. -/
structure World where
  packagesLoad : String → String → List Package × Option String
  parseDir : String → List (String × AstPackage) × Option String
  filepathDir : String → String
  unicodeIsUpper : Char → Bool

/-! ## Maps -/

/-- Go: `map[Token]Interface`. -/
abbrev Table := List (Token × Interface)

/-- Go: a `nil` map, which reads as the empty map. -/
def nilMap : Table := []

/-- Go: `m[k]` with the comma-ok form: `none` when absent. -/
def mapIndex (m : Table) (k : Token) : Option Interface := List.lookup k m

/-- Go: `m[k] = v`: the entry under `k`, if any, is replaced. -/
def mapAssign (m : Table) (k : Token) (v : Interface) : Table :=
  (k, v) :: m.filter (fun e => e.1 != k)

/-- Go: `for k, v := range src { dst[k] = v }`. -/
def mergeInto (dst src : Table) : Table :=
  src.foldl (fun acc e => mapAssign acc e.1 e.2) dst

/-! ## Token builder -/

/-- Go: `ast.IsExported(name)`: decodes the first rune of `name` and tests `unicode.IsUpper`;
the empty name is not exported. -/
def IsExported (w : World) (name : String) : Bool :=
  match name.data with
  | [] => false
  | ch :: _ => w.unicodeIsUpper ch

/-- Go: `Collector.makeToken`. -/
def makeToken (w : World) (importIdent : Option Ident) (spec : TypeSpec)
    (defaultPackage : String) : Token × Bool :=
  if !IsExported w spec.Name.Name then
    ("", false)
  else
    match importIdent with
    | some id => (id.Name ++ "." ++ spec.Name.Name, true)
    | none => (defaultPackage ++ "." ++ spec.Name.Name, true)

/-! ## Interface extractor -/

/-- Go: `Collector.findAllTypeSpecsInFile`. -/
def findAllTypeSpecsInFile (f : File) : List TypeSpec :=
  f.Decls.foldl
    (fun typeSpecs declaration =>
      match declaration with
      | .genDecl .TYPE specs =>
        specs.foldl
          (fun acc spec =>
            match spec with
            | .typeSpec t => acc ++ [t]
            | _ => acc)
          typeSpecs
      | _ => typeSpecs)
    []

/-- Go: `isInterface`: the type assertion `typeSpec.Type.(*ast.InterfaceType)`. -/
def isInterface (typeSpec : TypeSpec) : Bool :=
  match typeSpec.Type_ with
  | .interfaceType _ => true
  | _ => false

/-- Go: `Collector.findAllInterfaces`. -/
def findAllInterfaces (fileset : List File) : List TypeSpec :=
  let types := fileset.foldl (fun types file => types ++ findAllTypeSpecsInFile file) []
  types.foldl
    (fun interfaces typeSpec =>
      if isInterface typeSpec then interfaces ++ [typeSpec] else interfaces)
    []

/-- Go: `Collector.convertFilesMap`: the values of the file map, in range order. -/
def convertFilesMap (fileMap : List (String × File)) : List File :=
  fileMap.foldl (fun files e => files ++ [e.2]) []

/-! ## Module loader and source parser -/

/-- Go: `Collector.loadPackage`. -/
def loadPackage (w : World) (c : Collector) (importPath : String) :
    Option Package × Option GoError :=
  match w.packagesLoad c.loadDir importPath with
  | (_, some err) => (none, some (.external err))
  | (pkgs, none) =>
    match pkgs with
    | [] => (none, some (.errorf "package not found"))
    | p :: _ =>
      match p.Errors with
      | e :: _ => (some p, some (.external e))
      | [] => (some p, none)

/-- Go: `Collector.loadAST`. Exactly one of the two results is non-nil on every path, so the
pair is an `Except`. -/
def loadAST (w : World) (p : Package) : Except GoError AstPackage :=
  match p.GoFiles with
  | [] => .error .errNoFiles
  | g :: _ =>
    let dir := w.filepathDir g
    match w.parseDir dir with
    | (_, some err) => .error (.external err)
    | (pkgs, none) =>
      match List.lookup p.Name pkgs with
      | some ap => .ok ap
      | none =>
        .error (.errorf ("package with name " ++ p.Name ++ " not found in parsed directory"))

/-- Go: `strings.Trim(s, cutset)`: drops every leading and trailing character that is in
`cutset`. -/
def stringsTrim (s : String) (cutset : String) : String :=
  ⟨((s.data.dropWhile (fun ch => cutset.data.contains ch)).reverse.dropWhile
      (fun ch => cutset.data.contains ch)).reverse⟩

/-- Go: `fmt.Errorf(msg + "%w", err)` for an `err` that may be nil: a nil operand is not
wrapped, it is printed as `%!w(<nil>)`. -/
def errorfWrap (msg : String) (err : Option GoError) : GoError :=
  match err with
  | some e => .wrap msg e
  | none => .errorf (msg ++ "%!w(<nil>)")

/-! ## Collector -/

/-- The qualifier of the tokens of one import: `importIdent.Name` when the import spec has an
alias identifier, the package's own name otherwise. -/
def qualifier (importIdent : Option Ident) (defaultPackage : String) : String :=
  match importIdent with
  | some id => id.Name
  | none => defaultPackage

/-- Go: the loop `for _, iface := range ifaces` of `collectFromImport`, from the empty map. -/
def importLoop (w : World) (importIdent : Option Ident) (pkg : Package)
    (ifaces : List TypeSpec) : Table :=
  ifaces.foldl
    (fun resultMap iface =>
      match makeToken w importIdent iface pkg.Name with
      | (_, false) => resultMap
      | (interfaceToken, true) =>
        mapAssign resultMap interfaceToken
          { DefaultPackageName := pkg.Name
            Name := iface.Name.Name
            ImportPath := pkg.PkgPath })
    []

/-- Go: `Collector.collectFromImport`. -/
def collectFromImport (w : World) (c : Collector) (imp : ImportSpec) :
    Table × Option GoError :=
  let path := stringsTrim imp.Path "\""
  match loadPackage w c path with
  | (none, err) => (nilMap, some (errorfWrap "cant load package: " err))
  | (some pkg, _) =>
    match loadAST w pkg with
    | .error err =>
      if errorsIsNoFiles err then
        (nilMap, none)
      else
        (nilMap, some (.wrap ("cant load ast of package " ++ pkg.ID ++ ": ") err))
    | .ok astPkg =>
      let files := convertFilesMap astPkg.Files
      let ifaces := findAllInterfaces files
      (importLoop w imp.Name pkg ifaces, none)

/-- Go: the loop `for _, iface := range ifaces` of `collectFromPackageFiles`, from the empty
map. -/
def packageFilesLoop (pkg : Package) (ifaces : List TypeSpec) : Table :=
  ifaces.foldl
    (fun resultMap iface =>
      mapAssign resultMap iface.Name.Name
        { Name := iface.Name.Name
          DefaultPackageName := pkg.Name
          ImportPath := pkg.PkgPath })
    []

/-- Go: `Collector.collectFromPackageFiles`. -/
def collectFromPackageFiles (w : World) (c : Collector) (fs : List File) :
    Table × Option GoError :=
  match loadPackage w c "." with
  | (none, err) => (nilMap, some (errorfWrap "failed to load current package: " err))
  | (some pkg, _) => (packageFilesLoop pkg (findAllInterfaces fs), none)

/-- One run of the goroutines of `collectFromImports`, goroutine `i` working on
`f.Imports[i]`. `stores` is the order in which the goroutines reach the error slot `resErr`,
`sends` the order in which their maps arrive on `mapChan`. Every goroutine reaches the slot
before it sends, and nothing else orders the goroutines, so the two orders are independent.
The slot is read and then written in two steps; whichever goroutine writes last, the slot ends
up holding the error of one failing goroutine, which is the first failing one of some order. -/
structure Schedule where
  stores : List Nat
  sends : List Nat
deriving DecidableEq, Repr

/-- Every goroutine reaches the error slot once and sends once. -/
def Schedule.Valid (s : Schedule) (f : File) : Prop :=
  s.stores.Perm (List.range f.Imports.length) ∧ s.sends.Perm (List.range f.Imports.length)

/-- The import specs of the goroutines, listed in the given order of goroutines. -/
def importsInOrder (f : File) (order : List Nat) : List ImportSpec :=
  order.filterMap (fun i => f.Imports[i]?)

/-- Go: `if err != nil && resErr.Load() == nil { resErr.Store(err) }`. -/
def storeErr (resErr : Option GoError) (err : Option GoError) : Option GoError :=
  match err, resErr with
  | some e, none => some e
  | _, _ => resErr

/-- Go: the error slot of `collectFromImports` after the goroutines of `imps` have reached it
in this order. -/
def errLoop (w : World) (c : Collector) (imps : List ImportSpec) : Option GoError :=
  imps.foldl (fun resErr imp => storeErr resErr (collectFromImport w c imp).2) none

/-- Go: the loop `for m := range mapChan` of `collectFromImports`, the maps of `imps` arriving
in this order. -/
def mergeLoop (w : World) (c : Collector) (imps : List ImportSpec) : Table :=
  imps.foldl (fun resultMap imp => mergeInto resultMap (collectFromImport w c imp).1) []

/-- Go: `Collector.collectFromImports`. -/
def collectFromImports (w : World) (c : Collector) (f : File) (s : Schedule) :
    Table × Option GoError :=
  let resultMap := mergeLoop w c (importsInOrder f s.sends)
  let resErr := errLoop w c (importsInOrder f s.stores)
  (resultMap, resErr)

/-- Go: `Collector.Collect`. -/
def Collect (w : World) (c : Collector) (f : File) (fs : List File) (s : Schedule) :
    Table × Option GoError :=
  match collectFromImports w c f s with
  | (_, some err) => (nilMap, some err)
  | (mapFromImports, none) =>
    match collectFromPackageFiles w c fs with
    | (_, some err) => (nilMap, some err)
    | (mapFromPackageFiles, none) => (mergeInto mapFromImports mapFromPackageFiles, none)

/-! ## The extractor as the spec words it -/

/-- The type specs of one top-level declaration: those listed in a `type` declaration; no
other declaration has any. -/
def typeSpecsOfDecl : Decl → List TypeSpec
  | .genDecl .TYPE specs =>
    specs.filterMap (fun s => match s with
      | .typeSpec t => some t
      | _ => none)
  | _ => []

/-- The interface extractor as the spec words it: tree by tree, then declaration by
declaration within a tree, the type specs whose declared type is an interface type. -/
def specFindInterfaces (trees : List File) : List TypeSpec :=
  trees.flatMap (fun tree => tree.Decls.flatMap (fun d => (typeSpecsOfDecl d).filter isInterface))

/-- A type spec is declared at top level in a file: it is listed in a `type` declaration
among the file's declarations. -/
def DeclaredIn (t : TypeSpec) (f : File) : Prop :=
  ∃ specs, Decl.genDecl .TYPE specs ∈ f.Decls ∧ Spec.typeSpec t ∈ specs

/-- No key occurs twice, as in every Go map. -/
def KeysNodup (m : Table) : Prop := (m.map Prod.fst).Nodup

/-- The entry that one interface declaration contributes to the table of an import. -/
def importEntry (w : World) (importIdent : Option Ident) (pkg : Package) (t : TypeSpec) :
    Option (Token × Interface) :=
  if IsExported w t.Name.Name then
    some (qualifier importIdent pkg.Name ++ "." ++ t.Name.Name,
      { Name := t.Name.Name, DefaultPackageName := pkg.Name, ImportPath := pkg.PkgPath })
  else none

/-- The entry that one interface declaration contributes to the own-package table. -/
def packageEntry (pkg : Package) (t : TypeSpec) : Option (Token × Interface) :=
  some (t.Name.Name,
    { Name := t.Name.Name, DefaultPackageName := pkg.Name, ImportPath := pkg.PkgPath })

/-- The units agree on a token: no two of them hold different values under it. -/
def AgreeOn (w : World) (c : Collector) (l : List ImportSpec) (k : Token) : Prop :=
  ∀ imp ∈ l, ∀ imp' ∈ l, ∀ v v',
    mapIndex (collectFromImport w c imp).1 k = some v →
      mapIndex (collectFromImport w c imp').1 k = some v' → v = v'

/-! ## Concrete inputs -/

/-- The alias identifier `nu`. -/
def identNu : Ident := { Name := "nu" }

/-- The declaration `type Fetcher interface { Fetch() }`. -/
def specFetcher : TypeSpec :=
  { Name := { Name := "Fetcher" }, Assign := 0, Type_ := .interfaceType ["Fetch"] }

/-- The declaration `type helper interface { help() }`. -/
def specHelper : TypeSpec :=
  { Name := { Name := "helper" }, Assign := 0, Type_ := .interfaceType ["help"] }

/-- A world that resolves nothing, with the ASCII upper-case test. -/
def emptyWorld : World :=
  { packagesLoad := fun _ _ => ([], none)
    parseDir := fun _ => ([], none)
    filepathDir := fun p => p
    unicodeIsUpper := Char.isUpper }

/-- The declaration `type Client struct { addr }`. -/
def specClient : TypeSpec :=
  { Name := { Name := "Client" }, Assign := 0, Type_ := .structType ["addr"] }

/-- The declaration `type Local interface { local() }`, written inside a function body. -/
def specLocal : TypeSpec :=
  { Name := { Name := "Local" }, Assign := 0, Type_ := .interfaceType ["local"] }

/-- The declaration `type Runner interface { Run() }`. -/
def specRunner : TypeSpec :=
  { Name := { Name := "Runner" }, Assign := 0, Type_ := .interfaceType ["Run"] }

/-- The declaration `type Thing interface { Do() }`. -/
def specThing : TypeSpec :=
  { Name := { Name := "Thing" }, Assign := 0, Type_ := .interfaceType ["Do"] }

/-- A source file of package `netutil`: interfaces `Fetcher` and `helper` in one `type`
declaration, a variable, a struct, and a function with a local interface. -/
def fileFetch : File :=
  { Imports := []
    Decls :=
      [ .genDecl .TYPE [.typeSpec specFetcher, .typeSpec specHelper],
        .genDecl .VAR [.valueSpec ["defaultClient"]],
        .genDecl .TYPE [.typeSpec specClient],
        .funcDecl "get" [(.TYPE, [.typeSpec specLocal])] ] }

/-- The alias declaration `type Reader = interface { Read() }`. -/
def specAliasReader : TypeSpec :=
  { Name := { Name := "Reader" }, Assign := 14, Type_ := .interfaceType ["Read"] }

/-- The alias declaration `type Fetch = Fetcher`, whose right-hand side is a type name. -/
def specAliasFetch : TypeSpec :=
  { Name := { Name := "Fetch" }, Assign := 12, Type_ := .ident "Fetcher" }

/-- The type definition `type Wrapped (interface { Wrap() })`, with a parenthesised type. -/
def specWrapped : TypeSpec :=
  { Name := { Name := "Wrapped" }, Assign := 0,
    Type_ := .parenExpr (.interfaceType ["Wrap"]) }

/-- A source file with two alias declarations, a parenthesised interface type and a plain
interface. -/
def fileAlias : File :=
  { Imports := []
    Decls :=
      [ .genDecl .TYPE [.typeSpec specAliasReader, .typeSpec specAliasFetch],
        .genDecl .TYPE [.typeSpec specWrapped],
        .genDecl .TYPE [.typeSpec specFetcher] ] }

/-- A source file declaring the interface `Thing`. -/
def fileThing : File :=
  { Imports := [], Decls := [.genDecl .TYPE [.typeSpec specThing]] }

/-- Module `example.com/netutil`, short name `netutil`. -/
def pkgNetutil : Package :=
  { ID := "example.com/netutil", Name := "netutil", PkgPath := "example.com/netutil",
    GoFiles := ["/src/netutil/fetch.go"], Errors := [] }

/-- Module `example.com/v2/netutil`, another module with short name `netutil`. -/
def pkgNetutilV2 : Package :=
  { ID := "example.com/v2/netutil", Name := "netutil", PkgPath := "example.com/v2/netutil",
    GoFiles := ["/src/v2/netutil/fetch.go"], Errors := [] }

/-- Module `example.com/broken`, which resolves with a load diagnostic. -/
def pkgBroken : Package :=
  { ID := "example.com/broken", Name := "broken", PkgPath := "example.com/broken",
    GoFiles := ["/src/broken/thing.go"], Errors := ["undefined: x"] }

/-- Module `example.com/empty`, which resolves with no source file. -/
def pkgEmpty : Package :=
  { ID := "example.com/empty", Name := "empty", PkgPath := "example.com/empty",
    GoFiles := [], Errors := [] }

/-- The current module `example.com/app`, short name `app`. -/
def pkgApp : Package :=
  { ID := "example.com/app", Name := "app", PkgPath := "example.com/app",
    GoFiles := ["/src/app/main.go"], Errors := [] }

/-- A world with the modules above; every other import path resolves to nothing. -/
def demoWorld : World :=
  { packagesLoad := fun _ pattern =>
      if pattern = "example.com/netutil" then ([pkgNetutil], none)
      else if pattern = "example.com/v2/netutil" then ([pkgNetutilV2], none)
      else if pattern = "example.com/broken" then ([pkgBroken], none)
      else if pattern = "example.com/empty" then ([pkgEmpty], none)
      else if pattern = "." then ([pkgApp], none)
      else ([], none)
    parseDir := fun dir =>
      if dir = "/src/netutil" then
        ([("netutil", { Name := "netutil", Files := [("/src/netutil/fetch.go", fileFetch)] })],
          none)
      else if dir = "/src/v2/netutil" then
        ([("netutil", { Name := "netutil", Files := [("/src/v2/netutil/fetch.go", fileFetch)] })],
          none)
      else if dir = "/src/broken" then
        ([("broken", { Name := "broken", Files := [("/src/broken/thing.go", fileThing)] })],
          none)
      else ([], some "no such directory")
    filepathDir := fun file =>
      if file = "/src/netutil/fetch.go" then "/src/netutil"
      else if file = "/src/v2/netutil/fetch.go" then "/src/v2/netutil"
      else if file = "/src/broken/thing.go" then "/src/broken"
      else "."
    unicodeIsUpper := Char.isUpper }

/-- The collector of the examples. -/
def demoCollector : Collector := NewCollector "/src/app"

/-- The import `"example.com/netutil"`. -/
def impNetutil : ImportSpec := { Name := none, Path := "\"example.com/netutil\"" }

/-- The import `nu "example.com/netutil"`. -/
def impNetutilAliased : ImportSpec := { Name := some identNu, Path := "\"example.com/netutil\"" }

/-- The import `"example.com/v2/netutil"`. -/
def impNetutilV2 : ImportSpec := { Name := none, Path := "\"example.com/v2/netutil\"" }

/-- The import `"example.com/broken"`. -/
def impBroken : ImportSpec := { Name := none, Path := "\"example.com/broken\"" }

/-- The import `"example.com/empty"`. -/
def impEmpty : ImportSpec := { Name := none, Path := "\"example.com/empty\"" }

/-- The import `"example.com/missing"`, which resolves to nothing. -/
def impMissing : ImportSpec := { Name := none, Path := "\"example.com/missing\"" }

/-- A source file of the current module: interfaces `Runner` and `helper`. -/
def fileRunner : File :=
  { Imports := []
    Decls := [.genDecl .TYPE [.typeSpec specRunner], .genDecl .TYPE [.typeSpec specHelper]] }

/-- The compilation unit being processed: it imports `netutil`, `missing` and `broken`. -/
def fileMain : File :=
  { Imports := [impNetutil, impMissing, impBroken], Decls := [] }

/-- The goroutines of `fileMain` finishing in the order of the import list. -/
def schedInOrder : Schedule := { stores := [0, 1, 2], sends := [0, 1, 2] }

/-- A compilation unit importing `netutil` and `broken`, both of which load and parse. -/
def filePair : File :=
  { Imports := [impNetutil, impBroken], Decls := [] }

/-- A compilation unit importing two modules that share the short name `netutil`. -/
def fileClash : File :=
  { Imports := [impNetutil, impNetutilV2], Decls := [] }

/-- Two goroutines finishing in the order of the import list. -/
def schedFirstSecond : Schedule := { stores := [0, 1], sends := [0, 1] }

/-- Two goroutines finishing in the opposite order. -/
def schedSecondFirst : Schedule := { stores := [1, 0], sends := [1, 0] }

/-- Validity of a schedule is decidable. -/
instance (s : Schedule) (f : File) : Decidable (s.Valid f) := by
  unfold Schedule.Valid
  infer_instance

/-! ## Maps: lemmas -/

theorem lookup_filter_ne (m : Table) (k k' : Token) (h : k' ≠ k) :
    List.lookup k' (m.filter (fun e => e.1 != k)) = List.lookup k' m := by
  induction m with
  | nil => rfl
  | cons e m ih =>
    obtain ⟨a, b⟩ := e
    by_cases hak : a = k
    · subst hak
      have h1 : (k' == a) = false := by simpa using h
      simp [List.filter, List.lookup, h1, ih]
    · have h2 : (a != k) = true := by simpa using hak
      simp only [List.filter, h2, List.lookup]
      rw [ih]

theorem mapIndex_mapAssign (m : Table) (k : Token) (v : Interface) (k' : Token) :
    mapIndex (mapAssign m k v) k' = if k' = k then some v else mapIndex m k' := by
  unfold mapIndex mapAssign
  by_cases h : k' = k
  · subst h
    simp [List.lookup]
  · have h1 : (k' == k) = false := by simpa using h
    simp only [List.lookup, h1, if_neg h]
    exact lookup_filter_ne m k k' h

theorem mapIndex_nil (k : Token) : mapIndex [] k = none := rfl

theorem mergeInto_nil (dst : Table) : mergeInto dst [] = dst := rfl

theorem mergeInto_append (dst a b : Table) :
    mergeInto dst (a ++ b) = mergeInto (mergeInto dst a) b := by
  simp [mergeInto, List.foldl_append]

theorem mergeInto_cons (dst : Table) (e : Token × Interface) (src : Table) :
    mergeInto dst (e :: src) = mergeInto (mapAssign dst e.1 e.2) src := rfl

/-- After the range loop, a key of `src` holds the value of its last entry in `src`, and any
other key holds what `dst` held. -/
theorem mapIndex_mergeInto (dst src : Table) (k : Token) :
    mapIndex (mergeInto dst src) k =
      match mapIndex src.reverse k with
      | some v => some v
      | none => mapIndex dst k := by
  induction src using List.reverseRecOn with
  | nil => rfl
  | append_singleton src e ih =>
    obtain ⟨a, b⟩ := e
    rw [mergeInto_append, mergeInto_cons, mergeInto_nil, mapIndex_mapAssign]
    simp only [List.reverse_append, List.reverse_cons, List.reverse_nil, List.nil_append,
      List.singleton_append]
    by_cases h : k = a
    · subst h
      simp [mapIndex, List.lookup]
    · have h1 : (k == a) = false := by simpa using h
      rw [if_neg h, ih]
      simp [mapIndex, List.lookup, h1]


/-! ## Interface extractor: lemmas -/

theorem foldl_append_flatMap {α β : Type} (g : α → List β) (l : List α) (init : List β) :
    l.foldl (fun acc x => acc ++ g x) init = init ++ l.flatMap g := by
  induction l generalizing init with
  | nil => simp
  | cons x l ih => simp [List.foldl_cons, ih, List.flatMap_cons, List.append_assoc]

theorem foldl_specs (specs : List Spec) (init : List TypeSpec) :
    specs.foldl
        (fun acc spec =>
          match spec with
          | .typeSpec t => acc ++ [t]
          | _ => acc)
        init =
      init ++ typeSpecsOfDecl (.genDecl .TYPE specs) := by
  induction specs generalizing init with
  | nil => simp [typeSpecsOfDecl]
  | cons s specs ih =>
    rw [List.foldl_cons, ih]
    cases s <;> simp [typeSpecsOfDecl, List.filterMap_cons]

theorem findAllTypeSpecsInFile_eq (f : File) :
    findAllTypeSpecsInFile f = f.Decls.flatMap typeSpecsOfDecl := by
  unfold findAllTypeSpecsInFile
  have key : ∀ (ds : List Decl) (init : List TypeSpec),
      ds.foldl
          (fun typeSpecs declaration =>
            match declaration with
            | .genDecl .TYPE specs =>
              specs.foldl
                (fun acc spec =>
                  match spec with
                  | .typeSpec t => acc ++ [t]
                  | _ => acc)
                typeSpecs
            | _ => typeSpecs)
          init =
        init ++ ds.flatMap typeSpecsOfDecl := by
    intro ds
    induction ds with
    | nil => intro init; simp
    | cons d ds ih =>
      intro init
      rw [List.foldl_cons, ih, List.flatMap_cons]
      cases d with
      | genDecl tok specs =>
        cases tok <;> simp [typeSpecsOfDecl, foldl_specs]
      | funcDecl n b => simp [typeSpecsOfDecl]
      | badDecl => simp [typeSpecsOfDecl]
  simpa using key f.Decls []

theorem foldl_filter_append {α : Type} (p : α → Bool) (l : List α) (init : List α) :
    l.foldl (fun acc x => if p x then acc ++ [x] else acc) init = init ++ l.filter p := by
  induction l generalizing init with
  | nil => simp
  | cons x l ih =>
    rw [List.foldl_cons, ih]
    by_cases h : p x <;> simp [h, List.filter_cons]

theorem findAllInterfaces_eq_filter (fs : List File) :
    findAllInterfaces fs = (fs.flatMap findAllTypeSpecsInFile).filter isInterface := by
  unfold findAllInterfaces
  simp only [foldl_append_flatMap, foldl_filter_append, List.nil_append]

theorem findAllInterfaces_eq_spec (fs : List File) :
    findAllInterfaces fs = specFindInterfaces fs := by
  rw [findAllInterfaces_eq_filter, specFindInterfaces]
  induction fs with
  | nil => rfl
  | cons f fs ih =>
    rw [List.flatMap_cons, List.filter_append, ih, List.flatMap_cons, findAllTypeSpecsInFile_eq]
    congr 1
    generalize f.Decls = ds
    induction ds with
    | nil => rfl
    | cons d ds ihd => rw [List.flatMap_cons, List.filter_append, ihd, List.flatMap_cons]

theorem mem_typeSpecsOfDecl (t : TypeSpec) (d : Decl) :
    t ∈ typeSpecsOfDecl d ↔ ∃ specs, d = .genDecl .TYPE specs ∧ Spec.typeSpec t ∈ specs := by
  cases d with
  | genDecl tok specs =>
    cases tok <;> simp [typeSpecsOfDecl, List.mem_filterMap]
    constructor
    · rintro ⟨s, hs, hst⟩
      cases s <;> simp at hst
      subst hst
      exact hs
    · intro h
      exact ⟨_, h, rfl⟩
  | funcDecl n b => simp [typeSpecsOfDecl]
  | badDecl => simp [typeSpecsOfDecl]

theorem mem_findAllInterfaces (t : TypeSpec) (fs : List File) :
    t ∈ findAllInterfaces fs ↔ (∃ f ∈ fs, DeclaredIn t f) ∧ isInterface t = true := by
  rw [findAllInterfaces_eq_filter, List.mem_filter, List.mem_flatMap]
  constructor
  · rintro ⟨⟨f, hf, ht⟩, hi⟩
    rw [findAllTypeSpecsInFile_eq, List.mem_flatMap] at ht
    obtain ⟨d, hd, htd⟩ := ht
    obtain ⟨specs, rfl, hs⟩ := (mem_typeSpecsOfDecl t d).1 htd
    exact ⟨⟨f, hf, specs, hd, hs⟩, hi⟩
  · rintro ⟨⟨f, hf, specs, hd, hs⟩, hi⟩
    refine ⟨⟨f, hf, ?_⟩, hi⟩
    rw [findAllTypeSpecsInFile_eq, List.mem_flatMap]
    exact ⟨_, hd, (mem_typeSpecsOfDecl t _).2 ⟨specs, rfl, hs⟩⟩

theorem isInterface_iff (t : TypeSpec) :
    isInterface t = true ↔ ∃ ms, t.Type_ = .interfaceType ms := by
  unfold isInterface
  cases t.Type_ <;> simp

/-! ## Maps built by assignment: lemmas -/

theorem keysNodup_nil : KeysNodup [] := List.nodup_nil

theorem keysNodup_mapAssign (m : Table) (k : Token) (v : Interface) (h : KeysNodup m) :
    KeysNodup (mapAssign m k v) := by
  unfold KeysNodup mapAssign at *
  rw [List.map_cons, List.nodup_cons]
  constructor
  · intro hmem
    rw [List.mem_map] at hmem
    obtain ⟨e, he, hk⟩ := hmem
    rw [List.mem_filter] at he
    have h2 := he.2
    simp at h2
    exact h2 hk
  · exact h.sublist ((List.filter_sublist m).map Prod.fst)

theorem keysNodup_mergeInto (dst src : Table) (h : KeysNodup dst) :
    KeysNodup (mergeInto dst src) := by
  induction src generalizing dst with
  | nil => exact h
  | cons e src ih =>
    rw [mergeInto_cons]
    exact ih _ (keysNodup_mapAssign dst e.1 e.2 h)

theorem mapIndex_eq_some_iff (m : Table) (h : KeysNodup m) (k : Token) (v : Interface) :
    mapIndex m k = some v ↔ (k, v) ∈ m := by
  induction m with
  | nil => simp [mapIndex]
  | cons e m ih =>
    obtain ⟨a, b⟩ := e
    have hnd : a ∉ m.map Prod.fst ∧ KeysNodup m := by
      simpa [KeysNodup] using h
    have ih2 := ih hnd.2
    unfold mapIndex at ih2 ⊢
    by_cases hk : k = a
    · subst hk
      simp only [List.lookup, beq_self_eq_true, List.mem_cons, Prod.mk.injEq, true_and,
        Option.some.injEq]
      constructor
      · intro hb
        exact Or.inl hb.symm
      · rintro (hb | hb)
        · exact hb.symm
        · exact absurd (List.mem_map_of_mem Prod.fst hb) hnd.1
    · have h1 : (k == a) = false := by simpa using hk
      simp only [List.lookup, h1, ih2, List.mem_cons, Prod.mk.injEq, hk, false_and, false_or]

theorem mapIndex_reverse (m : Table) (h : KeysNodup m) (k : Token) :
    mapIndex m.reverse k = mapIndex m k := by
  have hr : KeysNodup m.reverse := by
    unfold KeysNodup at *
    rw [List.map_reverse]
    exact List.nodup_reverse.2 h
  apply Option.ext
  intro v
  rw [Option.mem_def, Option.mem_def, mapIndex_eq_some_iff _ hr, mapIndex_eq_some_iff _ h,
    List.mem_reverse]

/-- After the range loop over a map, a key of `src` holds `src`'s value and any other key
holds what `dst` held. -/
theorem mapIndex_mergeInto_nodup (dst src : Table) (h : KeysNodup src) (k : Token) :
    mapIndex (mergeInto dst src) k =
      match mapIndex src k with
      | some v => some v
      | none => mapIndex dst k := by
  rw [mapIndex_mergeInto, mapIndex_reverse src h]

/-- The range loop gives the same map in whichever order it visits the entries of `src`. -/
theorem mapIndex_mergeInto_perm (dst src src' : Table) (h : KeysNodup src)
    (hp : src.Perm src') (k : Token) :
    mapIndex (mergeInto dst src) k = mapIndex (mergeInto dst src') k := by
  have h' : KeysNodup src' := by
    unfold KeysNodup at *
    exact (hp.map Prod.fst).nodup_iff.1 h
  have hk : mapIndex src k = mapIndex src' k := by
    apply Option.ext
    intro v
    rw [Option.mem_def, Option.mem_def, mapIndex_eq_some_iff _ h, mapIndex_eq_some_iff _ h',
      hp.mem_iff]
  rw [mapIndex_mergeInto_nodup _ _ h, mapIndex_mergeInto_nodup _ _ h', hk]

theorem keysNodup_foldl_assign {α : Type} (g : α → Option (Token × Interface)) (l : List α)
    (init : Table) (h : KeysNodup init) :
    KeysNodup
      (l.foldl
        (fun m t =>
          match g t with
          | none => m
          | some e => mapAssign m e.1 e.2)
        init) := by
  induction l generalizing init with
  | nil => exact h
  | cons t l ih =>
    rw [List.foldl_cons]
    apply ih
    cases g t with
    | none => exact h
    | some e => exact keysNodup_mapAssign init e.1 e.2 h

/-- A loop that assigns, for each element, at most one entry, where the key decides the value:
the map it builds from the empty map holds exactly the entries of the elements. -/
theorem mapIndex_foldl_assign {α : Type} (g : α → Option (Token × Interface)) (l : List α)
    (hdet : ∀ t ∈ l, ∀ t' ∈ l, ∀ k v v', g t = some (k, v) → g t' = some (k, v') → v = v')
    (k : Token) (v : Interface) :
    mapIndex
        (l.foldl
          (fun m t =>
            match g t with
            | none => m
            | some e => mapAssign m e.1 e.2)
          [])
        k = some v ↔
      ∃ t ∈ l, g t = some (k, v) := by
  induction l using List.reverseRecOn with
  | nil => simp [mapIndex]
  | append_singleton l t ih =>
    have hdet' : ∀ t ∈ l, ∀ t' ∈ l, ∀ k v v',
        g t = some (k, v) → g t' = some (k, v') → v = v' := by
      intro a ha b hb
      exact hdet a (List.mem_append_left _ ha) b (List.mem_append_left _ hb)
    have ih2 := ih hdet'
    rw [List.foldl_append, List.foldl_cons, List.foldl_nil]
    cases hg : g t with
    | none =>
      simp only []
      rw [ih2]
      constructor
      · rintro ⟨a, ha, hga⟩
        exact ⟨a, List.mem_append_left _ ha, hga⟩
      · rintro ⟨a, ha, hga⟩
        rcases List.mem_append.1 ha with ha | ha
        · exact ⟨a, ha, hga⟩
        · rw [List.mem_singleton] at ha
          subst ha
          rw [hg] at hga
          cases hga
    | some e =>
      obtain ⟨k0, v0⟩ := e
      simp only []
      rw [mapIndex_mapAssign]
      by_cases hk : k = k0
      · subst hk
        rw [if_pos rfl]
        constructor
        · intro hv
          cases hv
          exact ⟨t, by simp, hg⟩
        · rintro ⟨a, ha, hga⟩
          have := hdet t (by simp) a ha k v0 v hg hga
          rw [this]
      · rw [if_neg hk, ih2]
        constructor
        · rintro ⟨a, ha, hga⟩
          exact ⟨a, List.mem_append_left _ ha, hga⟩
        · rintro ⟨a, ha, hga⟩
          rcases List.mem_append.1 ha with ha | ha
          · exact ⟨a, ha, hga⟩
          · rw [List.mem_singleton] at ha
            subst ha
            rw [hg] at hga
            cases hga
            exact absurd rfl hk

/-! ## Token builder and the two loops: lemmas -/

theorem makeToken_of_exported (w : World) (importIdent : Option Ident) (spec : TypeSpec)
    (d : String) (h : IsExported w spec.Name.Name = true) :
    makeToken w importIdent spec d = (qualifier importIdent d ++ "." ++ spec.Name.Name, true) := by
  cases importIdent <;> simp [makeToken, h, qualifier]

theorem makeToken_of_not_exported (w : World) (importIdent : Option Ident) (spec : TypeSpec)
    (d : String) (h : IsExported w spec.Name.Name = false) :
    makeToken w importIdent spec d = ("", false) := by
  simp [makeToken, h]

theorem token_cancel (q n n' : String) (h : q ++ "." ++ n = q ++ "." ++ n') : n = n' := by
  have h1 := congrArg String.data h
  simp only [String.data_append] at h1
  exact String.ext (List.append_cancel_left h1)

theorem importLoop_eq (w : World) (importIdent : Option Ident) (pkg : Package)
    (ifaces : List TypeSpec) :
    importLoop w importIdent pkg ifaces =
      ifaces.foldl
        (fun m t =>
          match importEntry w importIdent pkg t with
          | none => m
          | some e => mapAssign m e.1 e.2)
        [] := by
  unfold importLoop
  congr 1
  funext m t
  cases h : IsExported w t.Name.Name
  · simp [importEntry, h, makeToken_of_not_exported]
  · simp [importEntry, h, makeToken_of_exported]

theorem keysNodup_importLoop (w : World) (importIdent : Option Ident) (pkg : Package)
    (ifaces : List TypeSpec) : KeysNodup (importLoop w importIdent pkg ifaces) := by
  rw [importLoop_eq]
  exact keysNodup_foldl_assign (importEntry w importIdent pkg) ifaces [] keysNodup_nil

/-- The table of an import holds exactly one entry per exported interface name. -/
theorem mapIndex_importLoop (w : World) (importIdent : Option Ident) (pkg : Package)
    (ifaces : List TypeSpec) (k : Token) (v : Interface) :
    mapIndex (importLoop w importIdent pkg ifaces) k = some v ↔
      ∃ t ∈ ifaces, IsExported w t.Name.Name = true ∧
        k = qualifier importIdent pkg.Name ++ "." ++ t.Name.Name ∧
        v = { Name := t.Name.Name, DefaultPackageName := pkg.Name,
              ImportPath := pkg.PkgPath } := by
  rw [importLoop_eq, mapIndex_foldl_assign (importEntry w importIdent pkg)]
  · constructor
    · rintro ⟨t, ht, hg⟩
      unfold importEntry at hg
      by_cases he : IsExported w t.Name.Name = true
      · rw [if_pos he] at hg
        simp only [Option.some.injEq, Prod.mk.injEq] at hg
        exact ⟨t, ht, he, hg.1.symm, hg.2.symm⟩
      · rw [if_neg he] at hg
        cases hg
    · rintro ⟨t, ht, he, hk, hv⟩
      refine ⟨t, ht, ?_⟩
      unfold importEntry
      rw [if_pos he, hk, hv]
  · intro t _ t' _ k v v' hg hg'
    unfold importEntry at hg hg'
    by_cases he : IsExported w t.Name.Name = true
    · by_cases he' : IsExported w t'.Name.Name = true
      · rw [if_pos he] at hg
        rw [if_pos he'] at hg'
        simp only [Option.some.injEq, Prod.mk.injEq] at hg hg'
        have hn : t.Name.Name = t'.Name.Name := token_cancel _ _ _ (hg.1.trans hg'.1.symm)
        rw [← hg.2, ← hg'.2, hn]
      · rw [if_neg he'] at hg'
        cases hg'
    · rw [if_neg he] at hg
      cases hg

theorem packageFilesLoop_eq (pkg : Package) (ifaces : List TypeSpec) :
    packageFilesLoop pkg ifaces =
      ifaces.foldl
        (fun m t =>
          match packageEntry pkg t with
          | none => m
          | some e => mapAssign m e.1 e.2)
        [] := rfl

theorem keysNodup_packageFilesLoop (pkg : Package) (ifaces : List TypeSpec) :
    KeysNodup (packageFilesLoop pkg ifaces) := by
  rw [packageFilesLoop_eq]
  exact keysNodup_foldl_assign (packageEntry pkg) ifaces [] keysNodup_nil

/-- The own-package table holds exactly one entry per interface name, under the bare name. -/
theorem mapIndex_packageFilesLoop (pkg : Package) (ifaces : List TypeSpec) (k : Token)
    (v : Interface) :
    mapIndex (packageFilesLoop pkg ifaces) k = some v ↔
      ∃ t ∈ ifaces, k = t.Name.Name ∧
        v = { Name := t.Name.Name, DefaultPackageName := pkg.Name,
              ImportPath := pkg.PkgPath } := by
  rw [packageFilesLoop_eq, mapIndex_foldl_assign (packageEntry pkg)]
  · constructor
    · rintro ⟨t, ht, hg⟩
      simp only [packageEntry, Option.some.injEq, Prod.mk.injEq] at hg
      exact ⟨t, ht, hg.1.symm, hg.2.symm⟩
    · rintro ⟨t, ht, hk, hv⟩
      exact ⟨t, ht, by rw [hk, hv, packageEntry]⟩
  · intro t _ t' _ k v v' hg hg'
    simp only [packageEntry, Option.some.injEq, Prod.mk.injEq] at hg hg'
    have hn : t.Name.Name = t'.Name.Name := hg.1.trans hg'.1.symm
    rw [← hg.2, ← hg'.2, hn]

/-! ## One import: lemmas -/

theorem convertFilesMap_eq (fileMap : List (String × File)) :
    convertFilesMap fileMap = fileMap.map Prod.snd := by
  unfold convertFilesMap
  have key : ∀ (l : List (String × File)) (init : List File),
      l.foldl (fun files e => files ++ [e.2]) init = init ++ l.map Prod.snd := by
    intro l
    induction l with
    | nil => intro init; simp
    | cons e l ih => intro init; rw [List.foldl_cons, ih]; simp
  simpa using key fileMap []

theorem loadPackage_none_err (w : World) (c : Collector) (importPath : String)
    (err : Option GoError) (h : loadPackage w c importPath = (none, err)) : err ≠ none := by
  unfold loadPackage at h
  revert h
  rcases w.packagesLoad c.loadDir importPath with ⟨pkgs, _ | e⟩
  · cases pkgs with
    | nil => intro h; cases h; simp
    | cons p ps =>
      cases hp : p.Errors <;> simp [hp]
  · intro h; cases h; simp

theorem collectFromImport_of_none (w : World) (c : Collector) (imp : ImportSpec)
    (err : Option GoError) (h : loadPackage w c (stringsTrim imp.Path "\"") = (none, err)) :
    collectFromImport w c imp = (nilMap, some (errorfWrap "cant load package: " err)) := by
  simp [collectFromImport, h]

theorem collectFromImport_of_error (w : World) (c : Collector) (imp : ImportSpec)
    (pkg : Package) (diag : Option GoError) (err : GoError)
    (h : loadPackage w c (stringsTrim imp.Path "\"") = (some pkg, diag))
    (ha : loadAST w pkg = .error err) :
    collectFromImport w c imp =
      if errorsIsNoFiles err then (nilMap, none)
      else (nilMap, some (.wrap ("cant load ast of package " ++ pkg.ID ++ ": ") err)) := by
  simp [collectFromImport, h, ha]

theorem collectFromImport_of_ok (w : World) (c : Collector) (imp : ImportSpec)
    (pkg : Package) (diag : Option GoError) (astPkg : AstPackage)
    (h : loadPackage w c (stringsTrim imp.Path "\"") = (some pkg, diag))
    (ha : loadAST w pkg = .ok astPkg) :
    collectFromImport w c imp =
      (importLoop w imp.Name pkg (findAllInterfaces (convertFilesMap astPkg.Files)), none) := by
  simp [collectFromImport, h, ha]

theorem keysNodup_collectFromImport (w : World) (c : Collector) (imp : ImportSpec) :
    KeysNodup (collectFromImport w c imp).1 := by
  rcases hl : loadPackage w c (stringsTrim imp.Path "\"") with ⟨_ | pkg, diag⟩
  · rw [collectFromImport_of_none w c imp diag hl]
    exact keysNodup_nil
  · cases ha : loadAST w pkg with
    | error err =>
      rw [collectFromImport_of_error w c imp pkg diag err hl ha]
      split <;> exact keysNodup_nil
    | ok astPkg =>
      rw [collectFromImport_of_ok w c imp pkg diag astPkg hl ha]
      exact keysNodup_importLoop _ _ _ _

/-! ## The fan-out: lemmas -/

theorem importsInOrder_range (f : File) :
    importsInOrder f (List.range f.Imports.length) = f.Imports := by
  unfold importsInOrder
  generalize f.Imports = l
  induction l using List.reverseRecOn with
  | nil => rfl
  | append_singleton l a ih =>
    rw [List.length_append, List.length_singleton, List.range_succ, List.filterMap_append]
    have h1 : List.filterMap (fun i => (l ++ [a])[i]?) (List.range l.length) =
        List.filterMap (fun i => l[i]?) (List.range l.length) := by
      apply List.filterMap_congr
      intro i hi
      rw [List.mem_range] at hi
      rw [List.getElem?_append_left hi]
    rw [h1, ih]
    simp

theorem importsInOrder_perm (f : File) (order : List Nat)
    (h : order.Perm (List.range f.Imports.length)) :
    (importsInOrder f order).Perm f.Imports := by
  have h1 := List.Perm.filterMap (fun i => f.Imports[i]?) h
  rw [← importsInOrder_range f]
  exact h1

theorem storeErr_none (r : Option GoError) : storeErr r none = r := by
  cases r <;> rfl

theorem storeErr_some (e : GoError) (err : Option GoError) : storeErr (some e) err = some e := by
  cases err <;> rfl

theorem foldl_storeErr_some (w : World) (c : Collector) (l : List ImportSpec) (e : GoError) :
    l.foldl (fun resErr imp => storeErr resErr (collectFromImport w c imp).2) (some e) =
      some e := by
  induction l with
  | nil => rfl
  | cons a l ih => rw [List.foldl_cons, storeErr_some, ih]

/-- The error slot ends up holding the error of the first failing unit of the order. -/
theorem errLoop_eq_findSome (w : World) (c : Collector) (l : List ImportSpec) :
    errLoop w c l = l.findSome? (fun imp => (collectFromImport w c imp).2) := by
  unfold errLoop
  induction l with
  | nil => rfl
  | cons a l ih =>
    rw [List.foldl_cons, List.findSome?_cons]
    cases h : (collectFromImport w c a).2 with
    | none =>
      simp only [storeErr]
      exact ih
    | some e =>
      simp only [storeErr]
      exact foldl_storeErr_some w c l e

theorem errLoop_eq_none_iff (w : World) (c : Collector) (l : List ImportSpec) :
    errLoop w c l = none ↔ ∀ imp ∈ l, (collectFromImport w c imp).2 = none := by
  rw [errLoop_eq_findSome, List.findSome?_eq_none_iff]

theorem errLoop_eq_some (w : World) (c : Collector) (l : List ImportSpec) (e : GoError)
    (h : errLoop w c l = some e) : ∃ imp ∈ l, (collectFromImport w c imp).2 = some e := by
  rw [errLoop_eq_findSome] at h
  exact List.exists_of_findSome?_eq_some h

theorem mergeLoop_append_singleton (w : World) (c : Collector) (l : List ImportSpec)
    (imp : ImportSpec) :
    mergeLoop w c (l ++ [imp]) = mergeInto (mergeLoop w c l) (collectFromImport w c imp).1 := by
  simp [mergeLoop, List.foldl_append]

/-- In the merged table a token holds the value of the last unit of the order that has it. -/
theorem mapIndex_mergeLoop (w : World) (c : Collector) (l : List ImportSpec) (k : Token) :
    mapIndex (mergeLoop w c l) k =
      l.reverse.findSome? (fun imp => mapIndex (collectFromImport w c imp).1 k) := by
  induction l using List.reverseRecOn with
  | nil => rfl
  | append_singleton l imp ih =>
    rw [mergeLoop_append_singleton,
      mapIndex_mergeInto_nodup _ _ (keysNodup_collectFromImport w c imp), List.reverse_append,
      List.reverse_singleton, List.singleton_append, List.findSome?_cons, ih]
    cases mapIndex (collectFromImport w c imp).1 k <;> rfl

theorem mapIndex_mergeLoop_eq_none_iff (w : World) (c : Collector) (l : List ImportSpec)
    (k : Token) :
    mapIndex (mergeLoop w c l) k = none ↔
      ∀ imp ∈ l, mapIndex (collectFromImport w c imp).1 k = none := by
  rw [mapIndex_mergeLoop, List.findSome?_eq_none_iff]
  simp only [List.mem_reverse]

theorem mapIndex_mergeLoop_some (w : World) (c : Collector) (l : List ImportSpec) (k : Token)
    (v : Interface) (h : mapIndex (mergeLoop w c l) k = some v) :
    ∃ imp ∈ l, mapIndex (collectFromImport w c imp).1 k = some v := by
  rw [mapIndex_mergeLoop] at h
  obtain ⟨imp, himp, hv⟩ := List.exists_of_findSome?_eq_some h
  exact ⟨imp, List.mem_reverse.1 himp, hv⟩

theorem mapIndex_mergeLoop_of_agree (w : World) (c : Collector) (l : List ImportSpec)
    (k : Token) (hag : AgreeOn w c l k) (imp : ImportSpec) (himp : imp ∈ l) (v : Interface)
    (hv : mapIndex (collectFromImport w c imp).1 k = some v) :
    mapIndex (mergeLoop w c l) k = some v := by
  cases hm : mapIndex (mergeLoop w c l) k with
  | none =>
    have := (mapIndex_mergeLoop_eq_none_iff w c l k).1 hm imp himp
    rw [this] at hv
    cases hv
  | some v' =>
    obtain ⟨imp', himp', hv'⟩ := mapIndex_mergeLoop_some w c l k v' hm
    rw [hag imp himp imp' himp' v v' hv hv']

theorem mergeLoop_perm_isSome (w : World) (c : Collector) (l l' : List ImportSpec)
    (hp : l.Perm l') (k : Token) :
    (mapIndex (mergeLoop w c l) k).isSome = (mapIndex (mergeLoop w c l') k).isSome := by
  cases h : mapIndex (mergeLoop w c l) k with
  | none =>
    have h1 := (mapIndex_mergeLoop_eq_none_iff w c l k).1 h
    have h2 : mapIndex (mergeLoop w c l') k = none :=
      (mapIndex_mergeLoop_eq_none_iff w c l' k).2 (fun imp hi => h1 imp (hp.mem_iff.2 hi))
    rw [h2]
  | some v =>
    cases h' : mapIndex (mergeLoop w c l') k with
    | none =>
      have h1 := (mapIndex_mergeLoop_eq_none_iff w c l' k).1 h'
      have h2 : mapIndex (mergeLoop w c l) k = none :=
        (mapIndex_mergeLoop_eq_none_iff w c l k).2 (fun imp hi => h1 imp (hp.mem_iff.1 hi))
      rw [h2] at h
      cases h
    | some v' => rfl

theorem mergeLoop_perm_of_agree (w : World) (c : Collector) (l l' : List ImportSpec)
    (hp : l.Perm l') (k : Token) (hag : AgreeOn w c l k) :
    mapIndex (mergeLoop w c l) k = mapIndex (mergeLoop w c l') k := by
  cases h : mapIndex (mergeLoop w c l) k with
  | none =>
    have h1 := (mapIndex_mergeLoop_eq_none_iff w c l k).1 h
    exact ((mapIndex_mergeLoop_eq_none_iff w c l' k).2
      (fun imp hi => h1 imp (hp.mem_iff.2 hi))).symm
  | some v =>
    obtain ⟨imp, himp, hv⟩ := mapIndex_mergeLoop_some w c l k v h
    have hag' : AgreeOn w c l' k := by
      intro a ha b hb
      exact hag a (hp.mem_iff.2 ha) b (hp.mem_iff.2 hb)
    exact (mapIndex_mergeLoop_of_agree w c l' k hag' imp (hp.mem_iff.1 himp) v hv).symm

theorem errLoop_perm_isSome (w : World) (c : Collector) (l l' : List ImportSpec)
    (hp : l.Perm l') : errLoop w c l = none ↔ errLoop w c l' = none := by
  rw [errLoop_eq_none_iff, errLoop_eq_none_iff]
  constructor
  · intro h imp hi
    exact h imp (hp.mem_iff.2 hi)
  · intro h imp hi
    exact h imp (hp.mem_iff.1 hi)

/-! ## Token builder: theorems -/

/-- C1: for an exported declaration name `N`, `makeToken` returns `ok = true`; the token is
`a + "." + N` when the import carries an alias identifier named `a`, whatever the default
package name, and `d + "." + N` when it carries none. -/
theorem makeToken_exported (w : World) (spec : TypeSpec) (d : String)
    (hexp : IsExported w spec.Name.Name = true) :
    (∀ a : Ident, makeToken w (some a) spec d = (a.Name ++ "." ++ spec.Name.Name, true)) ∧
      makeToken w none spec d = (d ++ "." ++ spec.Name.Name, true) := by
  constructor
  · intro a
    simp [makeToken, hexp]
  · simp [makeToken, hexp]

/-- Witness of C1 on `type Fetcher interface`, alias `nu`, default package name `netutil`. -/
theorem makeToken_exported_witness :
    IsExported emptyWorld specFetcher.Name.Name = true ∧
      makeToken emptyWorld (some identNu) specFetcher "netutil" = ("nu.Fetcher", true) ∧
      makeToken emptyWorld none specFetcher "netutil" = ("netutil.Fetcher", true) :=
  ⟨by decide,
    (makeToken_exported emptyWorld specFetcher "netutil" (by decide)).1 identNu,
    (makeToken_exported emptyWorld specFetcher "netutil" (by decide)).2⟩

/-- C2: `makeToken` returns `ok = false` exactly when the declaration's name is not exported,
that is, when the name does not begin with an upper-case letter, and the token is then empty;
so every entry of the table of `collectFromImport` carries an exported name, and the table has
no entry under the token of a declaration whose name is not exported. -/
theorem makeToken_not_exported (w : World) (c : Collector) (imp : ImportSpec)
    (importIdent : Option Ident) (spec : TypeSpec) (d : String) :
    ((makeToken w importIdent spec d).2 = false ↔ IsExported w spec.Name.Name = false) ∧
      (IsExported w spec.Name.Name = false ↔
        ¬ ∃ ch rest, spec.Name.Name.data = ch :: rest ∧ w.unicodeIsUpper ch = true) ∧
      ((makeToken w importIdent spec d).2 = false → (makeToken w importIdent spec d).1 = "") ∧
      (∀ k v, mapIndex (collectFromImport w c imp).1 k = some v →
        IsExported w v.Name = true) ∧
      (IsExported w spec.Name.Name = false →
        ∀ pkg diag, loadPackage w c (stringsTrim imp.Path "\"") = (some pkg, diag) →
          mapIndex (collectFromImport w c imp).1
            (qualifier imp.Name pkg.Name ++ "." ++ spec.Name.Name) = none) := by
  have hentries : ∀ k v, mapIndex (collectFromImport w c imp).1 k = some v →
      IsExported w v.Name = true ∧ ∃ q, k = q ++ "." ++ v.Name := by
    intro k v hkv
    rcases hl : loadPackage w c (stringsTrim imp.Path "\"") with ⟨_ | pkg, diag⟩
    · rw [collectFromImport_of_none w c imp diag hl] at hkv
      cases hkv
    · cases ha : loadAST w pkg with
      | error err =>
        rw [collectFromImport_of_error w c imp pkg diag err hl ha] at hkv
        split at hkv <;> cases hkv
      | ok astPkg =>
        rw [collectFromImport_of_ok w c imp pkg diag astPkg hl ha] at hkv
        obtain ⟨t, _, he, hk, hv⟩ := (mapIndex_importLoop _ _ _ _ _ _).1 hkv
        subst hv
        exact ⟨he, _, hk⟩
  refine ⟨?_, ?_, ?_, fun k v hkv => (hentries k v hkv).1, ?_⟩
  · cases h : IsExported w spec.Name.Name
    · simp [makeToken_of_not_exported w importIdent spec d h]
    · simp [makeToken_of_exported w importIdent spec d h]
  · unfold IsExported
    cases hd : spec.Name.Name.data with
    | nil => simp
    | cons ch rest => simp
  · cases h : IsExported w spec.Name.Name
    · simp [makeToken_of_not_exported w importIdent spec d h]
    · simp [makeToken_of_exported w importIdent spec d h]
  · intro hne pkg diag hl
    cases hm : mapIndex (collectFromImport w c imp).1
        (qualifier imp.Name pkg.Name ++ "." ++ spec.Name.Name) with
    | none => rfl
    | some v =>
      exfalso
      cases ha : loadAST w pkg with
      | error err =>
        rw [collectFromImport_of_error w c imp pkg diag err hl ha] at hm
        split at hm <;> cases hm
      | ok astPkg =>
        rw [collectFromImport_of_ok w c imp pkg diag astPkg hl ha] at hm
        obtain ⟨t, _, he, hk, _⟩ := (mapIndex_importLoop _ _ _ _ _ _).1 hm
        have hn : spec.Name.Name = t.Name.Name := token_cancel _ _ _ hk
        rw [hn, he] at hne
        cases hne

/-- Witness of C2 on the unexported `helper` of module `netutil`: no token is made for it and
the table of the import has no entry `netutil.helper`. -/
theorem makeToken_not_exported_witness :
    makeToken demoWorld none specHelper "netutil" = ("", false) ∧
      mapIndex (collectFromImport demoWorld demoCollector impNetutil).1 "netutil.helper" = none :=
  ⟨by decide,
    (makeToken_not_exported demoWorld demoCollector impNetutil none specHelper "netutil").2.2.2.2
      (by decide) pkgNetutil none (by decide)⟩

/-! ## One import and the own module: theorems -/

/-- C3: when the module of an import path loads as `pkg` and parses as `astPkg`, every
exported interface `t` declared at top level in a file of `astPkg` has an entry in the table of
`collectFromImport`: under `a.N` when the import has the alias `a`, under `p.N` (`p` the
module's short name) when it has none, and in both cases the value is
`{Name: N, DefaultPackageName: p, ImportPath: m}`; no error is returned. -/
theorem collectFromImport_exported_entry (w : World) (c : Collector) (path : String)
    (pkg : Package) (diag : Option GoError) (astPkg : AstPackage) (file : String × File)
    (t : TypeSpec)
    (hl : loadPackage w c (stringsTrim path "\"") = (some pkg, diag))
    (ha : loadAST w pkg = .ok astPkg)
    (hf : file ∈ astPkg.Files) (ht : DeclaredIn t file.2) (hi : isInterface t = true)
    (he : IsExported w t.Name.Name = true) :
    (∀ importName : Option Ident, (collectFromImport w c { Name := importName, Path := path }).2 = none) ∧
      (∀ a : Ident,
        mapIndex (collectFromImport w c { Name := some a, Path := path }).1
            (a.Name ++ "." ++ t.Name.Name) =
          some { Name := t.Name.Name, DefaultPackageName := pkg.Name,
                 ImportPath := pkg.PkgPath }) ∧
      mapIndex (collectFromImport w c { Name := none, Path := path }).1
          (pkg.Name ++ "." ++ t.Name.Name) =
        some { Name := t.Name.Name, DefaultPackageName := pkg.Name,
               ImportPath := pkg.PkgPath } := by
  have hmem : t ∈ findAllInterfaces (convertFilesMap astPkg.Files) := by
    rw [mem_findAllInterfaces, convertFilesMap_eq]
    exact ⟨⟨file.2, List.mem_map_of_mem Prod.snd hf, ht⟩, hi⟩
  have hentry : ∀ importName : Option Ident,
      mapIndex (collectFromImport w c { Name := importName, Path := path }).1
          (qualifier importName pkg.Name ++ "." ++ t.Name.Name) =
        some { Name := t.Name.Name, DefaultPackageName := pkg.Name,
               ImportPath := pkg.PkgPath } := by
    intro importName
    rw [collectFromImport_of_ok w c { Name := importName, Path := path } pkg diag astPkg hl ha,
      mapIndex_importLoop]
    exact ⟨t, hmem, he, rfl, rfl⟩
  refine ⟨?_, fun a => hentry (some a), hentry none⟩
  intro importName
  rw [collectFromImport_of_ok w c { Name := importName, Path := path } pkg diag astPkg hl ha]

/-- Witness of C3: module `netutil` declaring `Fetcher`, imported plainly and as `nu`. -/
theorem collectFromImport_exported_entry_witness :
    mapIndex (collectFromImport demoWorld demoCollector impNetutilAliased).1 "nu.Fetcher" =
        some { Name := "Fetcher", DefaultPackageName := "netutil",
               ImportPath := "example.com/netutil" } ∧
      mapIndex (collectFromImport demoWorld demoCollector impNetutil).1 "netutil.Fetcher" =
        some { Name := "Fetcher", DefaultPackageName := "netutil",
               ImportPath := "example.com/netutil" } :=
  have h := collectFromImport_exported_entry demoWorld demoCollector "\"example.com/netutil\""
    pkgNetutil none { Name := "netutil", Files := [("/src/netutil/fetch.go", fileFetch)] }
    ("/src/netutil/fetch.go", fileFetch) specFetcher (by decide) (by rfl) (by decide)
    ⟨[.typeSpec specFetcher, .typeSpec specHelper], by decide, by decide⟩ (by decide)
    (by decide)
  ⟨h.2.1 identNu, h.2.2⟩

/-- C4, as the code has it: when the current module loads as `pkg`, every interface `t`
declared at top level in the supplied trees, exported or not, has an entry in the own-module
table under its bare name `N`, with value `{Name: N, DefaultPackageName: s, ImportPath: m}`,
and so has the result of `Collect` whenever the imports report no error. -/
theorem collectFromPackageFiles_bare_name (w : World) (c : Collector) (fs : List File)
    (pkg : Package) (diag : Option GoError) (file : File) (t : TypeSpec)
    (hl : loadPackage w c "." = (some pkg, diag))
    (hf : file ∈ fs) (ht : DeclaredIn t file) (hi : isInterface t = true) :
    (collectFromPackageFiles w c fs).2 = none ∧
      mapIndex (collectFromPackageFiles w c fs).1 t.Name.Name =
        some { Name := t.Name.Name, DefaultPackageName := pkg.Name,
               ImportPath := pkg.PkgPath } ∧
      ∀ (cur : File) (s : Schedule), (collectFromImports w c cur s).2 = none →
        mapIndex (Collect w c cur fs s).1 t.Name.Name =
          some { Name := t.Name.Name, DefaultPackageName := pkg.Name,
                 ImportPath := pkg.PkgPath } := by
  have hmem : t ∈ findAllInterfaces fs := (mem_findAllInterfaces t fs).2 ⟨⟨file, hf, ht⟩, hi⟩
  have hown : collectFromPackageFiles w c fs =
      (packageFilesLoop pkg (findAllInterfaces fs), none) := by
    simp [collectFromPackageFiles, hl]
  have hentry : mapIndex (packageFilesLoop pkg (findAllInterfaces fs)) t.Name.Name =
      some { Name := t.Name.Name, DefaultPackageName := pkg.Name,
             ImportPath := pkg.PkgPath } :=
    (mapIndex_packageFilesLoop pkg _ _ _).2 ⟨t, hmem, rfl, rfl⟩
  refine ⟨by rw [hown], by rw [hown]; exact hentry, ?_⟩
  intro cur s hs
  have hc : Collect w c cur fs s =
      (mergeInto (collectFromImports w c cur s).1
        (packageFilesLoop pkg (findAllInterfaces fs)), none) := by
    unfold Collect
    rcases hci : collectFromImports w c cur s with ⟨m, e⟩
    rw [hci] at hs
    simp only at hs
    subst hs
    simp [hown]
  rw [hc]
  simp only
  rw [mapIndex_mergeInto_nodup _ _ (keysNodup_packageFilesLoop pkg _), hentry]

/-- Witness of the amended C4: the current module `app` declaring `Runner` and `helper`. -/
theorem collectFromPackageFiles_bare_name_witness :
    mapIndex (collectFromPackageFiles demoWorld demoCollector [fileRunner]).1 "helper" =
      some { Name := "helper", DefaultPackageName := "app", ImportPath := "example.com/app" } :=
  (collectFromPackageFiles_bare_name demoWorld demoCollector [fileRunner] pkgApp none
    fileRunner specHelper (by decide) (by decide)
    ⟨[.typeSpec specHelper], by decide, by decide⟩ (by decide)).2.1

/-- Counterexample to C4 as stated: the current module has short name `app` and declares the
interface `Runner` at top level, and the own-module table has no entry under `app.Runner`;
the entry is under `Runner`. -/
theorem collectFromPackageFiles_qualified_absent :
    loadPackage demoWorld demoCollector "." = (some pkgApp, none) ∧
      specRunner ∈ findAllInterfaces [fileRunner] ∧
      (collectFromPackageFiles demoWorld demoCollector [fileRunner]).2 = none ∧
      mapIndex (collectFromPackageFiles demoWorld demoCollector [fileRunner]).1
        ("app" ++ "." ++ "Runner") = none ∧
      (mapIndex (collectFromPackageFiles demoWorld demoCollector [fileRunner]).1
        "Runner").isSome = true := by
  decide

/-- C7, as the code has it: `collectFromImport` does not look at the error that `loadPackage`
returns beside a module identity. With an identity, the unit fails exactly when `loadAST`
fails on that module with an error other than the no-files error; without an identity it
always fails. -/
theorem collectFromImport_error_iff (w : World) (c : Collector) (imp : ImportSpec) :
    (∀ pkg diag, loadPackage w c (stringsTrim imp.Path "\"") = (some pkg, diag) →
        ((collectFromImport w c imp).2 ≠ none ↔
          ∃ err, loadAST w pkg = .error err ∧ errorsIsNoFiles err = false)) ∧
      (∀ err, loadPackage w c (stringsTrim imp.Path "\"") = (none, err) →
        (collectFromImport w c imp).2 ≠ none) := by
  constructor
  · intro pkg diag hl
    cases ha : loadAST w pkg with
    | error err =>
      rw [collectFromImport_of_error w c imp pkg diag err hl ha]
      cases hn : errorsIsNoFiles err <;> simp [hn]
    | ok astPkg =>
      rw [collectFromImport_of_ok w c imp pkg diag astPkg hl ha]
      simp
  · intro err hl
    rw [collectFromImport_of_none w c imp err hl]
    simp

/-- Witness of the amended C7: module `broken` resolves with a load diagnostic and parses, so
its unit does not fail; module `missing` does not resolve, so its unit fails. -/
theorem collectFromImport_error_iff_witness :
    ¬ (collectFromImport demoWorld demoCollector impBroken).2 ≠ none ∧
      (collectFromImport demoWorld demoCollector impMissing).2 ≠ none :=
  ⟨fun h =>
    (((collectFromImport_error_iff demoWorld demoCollector impBroken).1 pkgBroken
      (some (.external "undefined: x")) (by decide)).1 h).elim
      (fun err herr => by
        have hok : loadAST demoWorld pkgBroken =
            .ok { Name := "broken", Files := [("/src/broken/thing.go", fileThing)] } := by rfl
        rw [hok] at herr
        cases herr.1),
    (collectFromImport_error_iff demoWorld demoCollector impMissing).2
      (some (.errorf "package not found")) (by decide)⟩

/-- Counterexample to C7 as stated: `loadPackage` returns module `broken` together with a
non-nil error, and `collectFromImport` returns a nil error and the module's table. -/
theorem collectFromImport_diagnostic_no_error :
    loadPackage demoWorld demoCollector (stringsTrim impBroken.Path "\"") =
        (some pkgBroken, some (.external "undefined: x")) ∧
      collectFromImport demoWorld demoCollector impBroken =
        ([("broken.Thing",
            { Name := "Thing", DefaultPackageName := "broken",
              ImportPath := "example.com/broken" })], none) := by
  decide

/-- C8: when the module of an import loads with an empty list of source files, `loadAST`
fails with the no-files error and `collectFromImport` returns the nil map and a nil error;
wherever the import stands in the completion order, the merged table and the error slot are
what they are without it. -/
theorem collectFromImport_no_files (w : World) (c : Collector) (imp : ImportSpec)
    (pkg : Package) (diag : Option GoError)
    (hl : loadPackage w c (stringsTrim imp.Path "\"") = (some pkg, diag))
    (hg : pkg.GoFiles = []) :
    loadAST w pkg = .error .errNoFiles ∧
      collectFromImport w c imp = (nilMap, none) ∧
      (∀ before after : List ImportSpec,
        mergeLoop w c (before ++ imp :: after) = mergeLoop w c (before ++ after) ∧
          errLoop w c (before ++ imp :: after) = errLoop w c (before ++ after)) := by
  have ha : loadAST w pkg = .error .errNoFiles := by
    simp [loadAST, hg]
  have hc : collectFromImport w c imp = (nilMap, none) := by
    rw [collectFromImport_of_error w c imp pkg diag _ hl ha]
    simp [errorsIsNoFiles]
  refine ⟨ha, hc, ?_⟩
  intro before after
  constructor
  · unfold mergeLoop
    rw [List.foldl_append, List.foldl_cons, List.foldl_append, hc]
    rfl
  · unfold errLoop
    rw [List.foldl_append, List.foldl_cons, List.foldl_append, hc]
    have hs : ∀ r : Option GoError, storeErr r none = r := by
      intro r
      cases r <;> rfl
    rw [hs]

/-- Witness of C8: module `empty` has no source file; its import between two others. -/
theorem collectFromImport_no_files_witness :
    collectFromImport demoWorld demoCollector impEmpty = (nilMap, none) ∧
      mergeLoop demoWorld demoCollector [impNetutil, impEmpty, impBroken] =
        mergeLoop demoWorld demoCollector [impNetutil, impBroken] :=
  have h := collectFromImport_no_files demoWorld demoCollector impEmpty pkgEmpty none
    (by decide) (by decide)
  ⟨h.2.1, (h.2.2 [impNetutil] [impBroken]).1⟩

/-- C9, as the code has it: `findAllInterfaces` returns the type specs listed in the top-level
`type` declarations of the trees whose declared type is an interface type node, once per
occurrence, tree by tree and then declaration by declaration. Membership looks at the declared
type only: neither the name nor `Assign` is read, so exported and unexported names, type
definitions and alias declarations are kept alike, and a type spec whose declared type is not
an interface type node is never returned. -/
theorem findAllInterfaces_spec (fs : List File) :
    findAllInterfaces fs = specFindInterfaces fs ∧
      (∀ t, t ∈ findAllInterfaces fs ↔
        (∃ f ∈ fs, DeclaredIn t f) ∧ ∃ ms, t.Type_ = .interfaceType ms) ∧
      (∀ t, (∃ f ∈ fs, DeclaredIn t f) → ∀ (name : Ident) (assign : Nat),
        (∃ f ∈ fs, DeclaredIn { t with Name := name, Assign := assign } f) →
          (t ∈ findAllInterfaces fs ↔
            { t with Name := name, Assign := assign } ∈ findAllInterfaces fs)) ∧
      (∀ t, (∀ ms, t.Type_ ≠ .interfaceType ms) → t ∉ findAllInterfaces fs) := by
  have hmem : ∀ t, t ∈ findAllInterfaces fs ↔
      (∃ f ∈ fs, DeclaredIn t f) ∧ ∃ ms, t.Type_ = .interfaceType ms := by
    intro t
    rw [mem_findAllInterfaces, isInterface_iff]
  refine ⟨findAllInterfaces_eq_spec fs, hmem, ?_, ?_⟩
  · intro t ht name assign ht'
    rw [hmem, hmem]
    constructor
    · rintro ⟨_, hi⟩
      exact ⟨ht', hi⟩
    · rintro ⟨_, hi⟩
      exact ⟨ht, hi⟩
  · intro t hne hin
    obtain ⟨ms, hms⟩ := ((hmem t).1 hin).2
    exact hne ms hms

/-- Witness of the amended C9: in `fileAlias` the alias `type Reader = interface { Read() }`
is returned, the alias `type Fetch = Fetcher` is not. -/
theorem findAllInterfaces_spec_witness :
    specAliasReader ∈ findAllInterfaces [fileAlias] ∧
      specAliasFetch ∉ findAllInterfaces [fileAlias] :=
  have h := findAllInterfaces_spec [fileAlias]
  ⟨(h.2.1 specAliasReader).2
      ⟨⟨fileAlias, by decide, [.typeSpec specAliasReader, .typeSpec specAliasFetch],
        by decide, by decide⟩, ["Read"], rfl⟩,
    h.2.2.2 specAliasFetch (by intro ms hms; cases hms)⟩

/-- Counterexample to C9 as stated: `type Reader = interface { Read() }` is an alias
declaration at top level, and `findAllInterfaces` returns it. -/
theorem findAllInterfaces_returns_alias :
    DeclaredIn specAliasReader fileAlias ∧
      specAliasReader.isAlias = true ∧
      specAliasReader ∈ findAllInterfaces [fileAlias] ∧
      findAllInterfaces [fileAlias] = [specAliasReader, specFetcher] :=
  ⟨⟨[.typeSpec specAliasReader, .typeSpec specAliasFetch], by decide, by decide⟩,
    by decide, by decide, by decide⟩

/-- The extractor on two trees: the struct `Client`, the variable and the interface `Local`
of a function body are left out; the unexported `helper` is kept, once per occurrence. -/
theorem findAllInterfaces_example :
    findAllInterfaces [fileFetch, fileRunner] =
      [specFetcher, specHelper, specRunner, specHelper] := by
  decide

/-! ## Collect: theorems -/

/-- C5: when `collectFromImports` returns the table `I` and `collectFromPackageFiles` the
table `O`, both without error, `Collect` returns without error the right-biased merge: a token
of `O` holds `O`'s value, also when `I` has the token, and a token that `O` lacks holds what `I`
holds under it, which is nothing when `I` lacks it too. -/
theorem Collect_right_biased (w : World) (c : Collector) (f : File) (fs : List File)
    (s : Schedule) (I O : Table)
    (hI : collectFromImports w c f s = (I, none))
    (hO : collectFromPackageFiles w c fs = (O, none)) :
    (Collect w c f fs s).2 = none ∧
      (∀ k v, mapIndex O k = some v → mapIndex (Collect w c f fs s).1 k = some v) ∧
      (∀ k, mapIndex O k = none → mapIndex (Collect w c f fs s).1 k = mapIndex I k) := by
  have hnd : KeysNodup O := by
    unfold collectFromPackageFiles at hO
    rcases hl : loadPackage w c "." with ⟨_ | pkg, diag⟩
    · rw [hl] at hO
      simp at hO
    · rw [hl] at hO
      simp only [Prod.mk.injEq, and_true] at hO
      rw [← hO]
      exact keysNodup_packageFilesLoop pkg _
  have hc : Collect w c f fs s = (mergeInto I O, none) := by
    simp [Collect, hI, hO]
  rw [hc]
  refine ⟨rfl, ?_, ?_⟩
  · intro k v hk
    simp only
    rw [mapIndex_mergeInto_nodup _ _ hnd, hk]
  · intro k hk
    simp only
    rw [mapIndex_mergeInto_nodup _ _ hnd, hk]

theorem keysNodup_collectFromPackageFiles (w : World) (c : Collector) (fs : List File) :
    KeysNodup (collectFromPackageFiles w c fs).1 := by
  unfold collectFromPackageFiles
  rcases hl : loadPackage w c "." with ⟨_ | pkg, diag⟩
  · exact keysNodup_nil
  · exact keysNodup_packageFilesLoop pkg _

/-- What `Collect` holds under a token, in terms of the two loops of the fan-out and of the
own-module table. -/
theorem mapIndex_Collect (w : World) (c : Collector) (f : File) (fs : List File)
    (s : Schedule) (k : Token) :
    mapIndex (Collect w c f fs s).1 k =
      match errLoop w c (importsInOrder f s.stores), (collectFromPackageFiles w c fs).2 with
      | none, none =>
        (match mapIndex (collectFromPackageFiles w c fs).1 k with
          | some v => some v
          | none => mapIndex (mergeLoop w c (importsInOrder f s.sends)) k)
      | _, _ => none := by
  unfold Collect collectFromImports
  simp only
  cases he : errLoop w c (importsInOrder f s.stores) with
  | some e => rfl
  | none =>
    simp only
    have hnd := keysNodup_collectFromPackageFiles w c fs
    rcases ho : collectFromPackageFiles w c fs with ⟨O, _ | e⟩
    · rw [ho] at hnd
      simp only
      rw [mapIndex_mergeInto_nodup _ _ hnd]
    · rfl

/-- C6, as the code has it: when the unit of at least one import fails, `collectFromImports`
returns the error of one failing unit together with the merged table, in which every token
contributed by an import that did not fail is present, with the contributed value whenever
the imports agree on the token; `Collect` passes the error on with a nil table. -/
theorem collectFromImports_partial (w : World) (c : Collector) (f : File) (fs : List File)
    (s : Schedule) (hs : s.Valid f)
    (hfail : ∃ imp ∈ f.Imports, (collectFromImport w c imp).2 ≠ none) :
    (∃ e, (collectFromImports w c f s).2 = some e ∧
        (∃ imp ∈ f.Imports, (collectFromImport w c imp).2 = some e) ∧
        Collect w c f fs s = (nilMap, some e)) ∧
      (∀ imp ∈ f.Imports, (collectFromImport w c imp).2 = none →
        ∀ k v, mapIndex (collectFromImport w c imp).1 k = some v →
          (mapIndex (collectFromImports w c f s).1 k).isSome = true ∧
            (AgreeOn w c f.Imports k → mapIndex (collectFromImports w c f s).1 k = some v)) := by
  have hst := importsInOrder_perm f s.stores hs.1
  have hse := importsInOrder_perm f s.sends hs.2
  constructor
  · cases he : errLoop w c (importsInOrder f s.stores) with
    | none =>
      exfalso
      obtain ⟨imp, himp, hne⟩ := hfail
      exact hne ((errLoop_eq_none_iff w c _).1 he imp (hst.mem_iff.2 himp))
    | some e =>
      obtain ⟨imp, himp, hie⟩ := errLoop_eq_some w c _ e he
      refine ⟨e, ?_, ⟨imp, hst.mem_iff.1 himp, hie⟩, ?_⟩
      · simp [collectFromImports, he]
      · simp [Collect, collectFromImports, he]
  · intro imp himp _ k v hv
    have hmem : imp ∈ importsInOrder f s.sends := hse.mem_iff.2 himp
    constructor
    · cases hm : mapIndex (collectFromImports w c f s).1 k with
      | some v' => rfl
      | none =>
        have hm' : mapIndex (mergeLoop w c (importsInOrder f s.sends)) k = none := hm
        have := (mapIndex_mergeLoop_eq_none_iff w c _ k).1 hm' imp hmem
        rw [this] at hv
        cases hv
    · intro hag
      have hag' : AgreeOn w c (importsInOrder f s.sends) k := by
        intro a ha b hb
        exact hag a (hse.mem_iff.1 ha) b (hse.mem_iff.1 hb)
      exact mapIndex_mergeLoop_of_agree w c _ k hag' imp hmem v hv

/-- C10, as the code has it: for any two completion orders the tables of `collectFromImports`
have the same tokens, and so have the tables of `Collect`; when no two imports hold different
values under one token, the values are the same as well. -/
theorem Collect_schedule_independent (w : World) (c : Collector) (f : File) (fs : List File)
    (s1 s2 : Schedule) (h1 : s1.Valid f) (h2 : s2.Valid f) :
    (∀ k, (mapIndex (collectFromImports w c f s1).1 k).isSome =
        (mapIndex (collectFromImports w c f s2).1 k).isSome) ∧
      (∀ k, (mapIndex (Collect w c f fs s1).1 k).isSome =
        (mapIndex (Collect w c f fs s2).1 k).isSome) ∧
      ((∀ k, AgreeOn w c f.Imports k) →
        ∀ k, mapIndex (collectFromImports w c f s1).1 k =
            mapIndex (collectFromImports w c f s2).1 k ∧
          mapIndex (Collect w c f fs s1).1 k = mapIndex (Collect w c f fs s2).1 k) := by
  have hst : (importsInOrder f s1.stores).Perm (importsInOrder f s2.stores) :=
    (importsInOrder_perm f _ h1.1).trans (importsInOrder_perm f _ h2.1).symm
  have hse : (importsInOrder f s1.sends).Perm (importsInOrder f s2.sends) :=
    (importsInOrder_perm f _ h1.2).trans (importsInOrder_perm f _ h2.2).symm
  have herr := errLoop_perm_isSome w c _ _ hst
  have hkeys : ∀ k, (mapIndex (mergeLoop w c (importsInOrder f s1.sends)) k).isSome =
      (mapIndex (mergeLoop w c (importsInOrder f s2.sends)) k).isSome :=
    fun k => mergeLoop_perm_isSome w c _ _ hse k
  refine ⟨hkeys, ?_, ?_⟩
  · intro k
    rw [mapIndex_Collect, mapIndex_Collect]
    cases he1 : errLoop w c (importsInOrder f s1.stores) with
    | none =>
      rw [herr.1 he1]
      cases (collectFromPackageFiles w c fs).2 with
      | some e => rfl
      | none =>
        simp only
        cases mapIndex (collectFromPackageFiles w c fs).1 k with
        | some v => rfl
        | none => exact hkeys k
    | some e1 =>
      cases he2 : errLoop w c (importsInOrder f s2.stores) with
      | none =>
        rw [herr.2 he2] at he1
        cases he1
      | some e2 => rfl
  · intro hag k
    have hag1 : AgreeOn w c (importsInOrder f s1.sends) k := by
      intro a ha b hb
      exact hag k a ((importsInOrder_perm f _ h1.2).mem_iff.1 ha) b
        ((importsInOrder_perm f _ h1.2).mem_iff.1 hb)
    have hval : mapIndex (mergeLoop w c (importsInOrder f s1.sends)) k =
        mapIndex (mergeLoop w c (importsInOrder f s2.sends)) k :=
      mergeLoop_perm_of_agree w c _ _ hse k hag1
    refine ⟨hval, ?_⟩
    rw [mapIndex_Collect, mapIndex_Collect]
    cases he1 : errLoop w c (importsInOrder f s1.stores) with
    | none =>
      rw [herr.1 he1]
      cases (collectFromPackageFiles w c fs).2 with
      | some e => rfl
      | none =>
        simp only
        rw [hval]
    | some e1 =>
      cases he2 : errLoop w c (importsInOrder f s2.stores) with
      | none =>
        rw [herr.2 he2] at he1
        cases he1
      | some e2 => rfl

/-- Witness of C5: the unit imports `netutil` and `broken`, the current module declares
`Runner` and `helper`. -/
theorem Collect_right_biased_witness :
    (Collect demoWorld demoCollector filePair [fileRunner] schedFirstSecond).2 = none ∧
      mapIndex (Collect demoWorld demoCollector filePair [fileRunner] schedFirstSecond).1
          "Runner" =
        some { Name := "Runner", DefaultPackageName := "app",
               ImportPath := "example.com/app" } ∧
      mapIndex (Collect demoWorld demoCollector filePair [fileRunner] schedFirstSecond).1
          "netutil.Fetcher" =
        some { Name := "Fetcher", DefaultPackageName := "netutil",
               ImportPath := "example.com/netutil" } :=
  have h := Collect_right_biased demoWorld demoCollector filePair [fileRunner] schedFirstSecond
    (collectFromImports demoWorld demoCollector filePair schedFirstSecond).1
    (collectFromPackageFiles demoWorld demoCollector [fileRunner]).1
    (by decide) (by decide)
  ⟨h.1, h.2.1 "Runner" _ (by decide), (h.2.2 "netutil.Fetcher" (by decide)).trans (by decide)⟩

/-- Witness of the amended C6: of the three imports of `fileMain`, `missing` fails; the merged
table of `collectFromImports` still has the token of `netutil`, and `Collect` returns the nil
table. -/
theorem collectFromImports_partial_witness :
    (mapIndex (collectFromImports demoWorld demoCollector fileMain schedInOrder).1
        "netutil.Fetcher").isSome = true ∧
      ∃ e, Collect demoWorld demoCollector fileMain [fileRunner] schedInOrder =
        (nilMap, some e) :=
  have h := collectFromImports_partial demoWorld demoCollector fileMain [fileRunner]
    schedInOrder ⟨by decide, by decide⟩ ⟨impMissing, by decide, by decide⟩
  ⟨(h.2 impNetutil (by decide) (by decide) "netutil.Fetcher"
      { Name := "Fetcher", DefaultPackageName := "netutil",
        ImportPath := "example.com/netutil" } (by decide)).1,
    h.1.elim (fun e he => ⟨e, he.2.2⟩)⟩

/-- Counterexample to C6 as stated: of the three imports of `fileMain` only `missing` fails,
`netutil` contributes the entry `netutil.Fetcher`, and `Collect` returns the error with a
table that has no entry under `netutil.Fetcher`. -/
theorem Collect_drops_partial_table :
    schedInOrder.Valid fileMain ∧
      (collectFromImport demoWorld demoCollector impMissing).2 ≠ none ∧
      (collectFromImport demoWorld demoCollector impNetutil).2 = none ∧
      (collectFromImport demoWorld demoCollector impBroken).2 = none ∧
      mapIndex (collectFromImport demoWorld demoCollector impNetutil).1 "netutil.Fetcher" =
        some { Name := "Fetcher", DefaultPackageName := "netutil",
               ImportPath := "example.com/netutil" } ∧
      Collect demoWorld demoCollector fileMain [fileRunner] schedInOrder =
        (nilMap, some (.wrap "cant load package: " (.errorf "package not found"))) ∧
      mapIndex (Collect demoWorld demoCollector fileMain [fileRunner] schedInOrder).1
        "netutil.Fetcher" = none := by
  decide

theorem agreeOn_filePair (k : Token) : AgreeOn demoWorld demoCollector filePair.Imports k := by
  have hn : (collectFromImport demoWorld demoCollector impNetutil).1 =
      [("netutil.Fetcher", { Name := "Fetcher", DefaultPackageName := "netutil",
                             ImportPath := "example.com/netutil" })] := by decide
  have hb : (collectFromImport demoWorld demoCollector impBroken).1 =
      [("broken.Thing", { Name := "Thing", DefaultPackageName := "broken",
                          ImportPath := "example.com/broken" })] := by decide
  have hone : ∀ (k0 : Token) (x v : Interface), mapIndex [(k0, x)] k = some v →
      k = k0 ∧ v = x := by
    intro k0 x v h
    unfold mapIndex at h
    by_cases hk : k = k0
    · subst hk
      simp [List.lookup] at h
      exact ⟨rfl, h.symm⟩
    · have h1 : (k == k0) = false := by simpa using hk
      simp [List.lookup, h1] at h
  intro imp himp imp' himp' v v' hv hv'
  have hi : imp = impNetutil ∨ imp = impBroken := by simpa [filePair] using himp
  have hi' : imp' = impNetutil ∨ imp' = impBroken := by simpa [filePair] using himp'
  rcases hi with rfl | rfl <;> rcases hi' with rfl | rfl
  · rw [hn] at hv hv'
    rw [(hone _ _ _ hv).2, (hone _ _ _ hv').2]
  · rw [hn] at hv
    rw [hb] at hv'
    have := (hone _ _ _ hv).1.symm.trans (hone _ _ _ hv').1
    exact absurd this (by decide)
  · rw [hb] at hv
    rw [hn] at hv'
    have := (hone _ _ _ hv).1.symm.trans (hone _ _ _ hv').1
    exact absurd this (by decide)
  · rw [hb] at hv hv'
    rw [(hone _ _ _ hv).2, (hone _ _ _ hv').2]

/-- Witness of the amended C10: `netutil` and `broken` contribute different tokens, and the
two completion orders give the same entry. -/
theorem Collect_schedule_independent_witness :
    mapIndex (Collect demoWorld demoCollector filePair [fileRunner] schedFirstSecond).1
        "broken.Thing" =
      mapIndex (Collect demoWorld demoCollector filePair [fileRunner] schedSecondFirst).1
        "broken.Thing" :=
  ((Collect_schedule_independent demoWorld demoCollector filePair [fileRunner]
    schedFirstSecond schedSecondFirst ⟨by decide, by decide⟩ ⟨by decide, by decide⟩).2.2
    agreeOn_filePair "broken.Thing").2

/-- Counterexample to C10 as stated: two imports contribute the token `netutil.Fetcher` with
different values, and the two completion orders leave different values under it, in the table
of `collectFromImports` and in the table of `Collect`. -/
theorem Collect_schedule_dependent :
    schedFirstSecond.Valid fileClash ∧ schedSecondFirst.Valid fileClash ∧
      mapIndex (collectFromImports demoWorld demoCollector fileClash schedFirstSecond).1
        "netutil.Fetcher" =
        some { Name := "Fetcher", DefaultPackageName := "netutil",
               ImportPath := "example.com/v2/netutil" } ∧
      mapIndex (collectFromImports demoWorld demoCollector fileClash schedSecondFirst).1
        "netutil.Fetcher" =
        some { Name := "Fetcher", DefaultPackageName := "netutil",
               ImportPath := "example.com/netutil" } ∧
      mapIndex (Collect demoWorld demoCollector fileClash [fileRunner] schedFirstSecond).1
        "netutil.Fetcher" ≠
      mapIndex (Collect demoWorld demoCollector fileClash [fileRunner] schedSecondFirst).1
        "netutil.Fetcher" := by
  decide

end Gotests
